import Mathlib

/-!
Shallow embedding of `src/wip.py`, an AWS WorkSpaces dynamic-inventory
generator for Ansible.  Records fetched from the paginated
`describe_workspaces` listing are filtered to `AVAILABLE` state, classified
into an OS-derived group, given per-host connection variables, and added to
tag-derived groups.  Python dictionaries are modelled as insertion-ordered
association lists, Python exceptions as `Except String`, and defensive
`dict.get(key, '')` accesses as `Option.getD`.
-/

deriving instance DecidableEq for Except

namespace WorkspacesInventory

/-- One entry of the `TagList` returned by `describe_tags`
(`item.get('Key', '')`, `item.get('Value', '')` in the source). -/
structure TagPair where
  Key : Option String
  Value : Option String
deriving DecidableEq

/-- The nested `WorkspaceProperties` dict of a workspace record. -/
structure WorkspaceProperties where
  OperatingSystemName : Option String
deriving DecidableEq

/-- A workspace record as consumed by `generate_inventory`: every field the
code reads, each possibly absent (the code defaults each to `''`). -/
structure Workspace where
  State : Option String
  ComputerName : Option String
  WorkspaceProperties : Option WorkspaceProperties
  WorkspaceId : Option String
  IpAddress : Option String
deriving DecidableEq

/-- Response of `client.describe_tags`: the code reads `.get('TagList', '')`
(an absent key yields an empty iteration, modelled as `getD []`). -/
structure DescribeTagsResponse where
  TagList : Option (List TagPair)
deriving DecidableEq

/-- `ws.get('State', '')` (line 83). -/
def wsState (ws : Workspace) : String := ws.State.getD ""

/-- `ws.get('ComputerName', '')` (line 87). -/
def wsComputerName (ws : Workspace) : String := ws.ComputerName.getD ""

/-- `ws.get('WorkspaceProperties', {}).get('OperatingSystemName', '')` (line 88). -/
def wsOs (ws : Workspace) : String :=
  (ws.WorkspaceProperties.bind WorkspaceProperties.OperatingSystemName).getD ""

/-- `ws.get('WorkspaceId', '')` (line 89). -/
def wsId (ws : Workspace) : String := ws.WorkspaceId.getD ""

/-- `ws.get('IpAddress', '')` (line 110). -/
def wsIp (ws : Workspace) : String := ws.IpAddress.getD ""

/-- Python `str.lower()`, modelled characterwise over the string's
character list. -/
def pyLower (s : String) : String := String.mk (s.data.map Char.toLower)

/-- The group name one tag contributes:
`f"{item.get('Key','').lower()}-{item.get('Value','').lower()}"` (lines 45-47). -/
def tag_name (t : TagPair) : String :=
  pyLower (t.Key.getD "") ++ "-" ++ pyLower (t.Value.getD "")

/-- The loop of `get_tags` (lines 43-50): accumulate each tag's group name,
appending it only when not already present. -/
def tag_group_names (tags_list : List TagPair) : List String :=
  tags_list.foldl
    (fun group_names item =>
      let group_name := tag_name item
      if group_name ∈ group_names then group_names else group_names ++ [group_name])
    []

/-- `get_tags` (lines 35-50): a failing `describe_tags` call is re-raised
(propagates as `.error`); otherwise the tag names are accumulated. -/
def get_tags (describe_tags : String → Except String DescribeTagsResponse)
    (workspace_id : String) : Except String (List String) :=
  match describe_tags workspace_id with
  | .error e => .error e
  | .ok resp => .ok (tag_group_names (resp.TagList.getD []))

/-- A value of the inventory dict: the reserved `_meta` entry holding the
hostvars dict, or a group `{'hosts': [...], 'vars': {...}}`. -/
inductive InvValue where
  | meta (hostvars : List (String × List (String × String)))
  | group (hosts : List String) (vars : List (String × String))
deriving DecidableEq

/-- The inventory: a Python dict modelled as an insertion-ordered
association list. -/
abbrev Inventory := List (String × InvValue)

/-- Dict lookup: value at the first matching key. -/
def lookupKey {α : Type} : List (String × α) → String → Option α
  | [], _ => none
  | (k', v) :: rest, k => if k' = k then some v else lookupKey rest k

/-- Python `key in dict`. -/
def containsKey {α : Type} : List (String × α) → String → Bool
  | [], _ => false
  | (k', _) :: rest, k => if k' = k then true else containsKey rest k

/-- Python `dict[k] = v`: replace the value at an existing key in place,
else append the new binding at the end. -/
def dictSet {α : Type} (m : List (String × α)) (k : String) (v : α) :
    List (String × α) :=
  if containsKey m k then m.map (fun p => if p.1 = k then (k, v) else p)
  else m ++ [(k, v)]

/-- Lines 112-113: `if group_name not in self.inventory: ... = {'hosts': [], 'vars': {}}`. -/
def ensure_group (inv : Inventory) (g : String) : Inventory :=
  if containsKey inv g then inv else inv ++ [(g, .group [] [])]

/-- Line 115 / line 139: `self.inventory[g]['hosts'].append(ip)`.  On the
reserved meta entry the Python would raise `KeyError`; that case is
unreachable (tag names always contain a hyphen, OS group names never do)
and is modelled as leaving the entry unchanged. -/
def append_host (inv : Inventory) (g : String) (ip : String) : Inventory :=
  inv.map (fun p =>
    if p.1 = g then
      match p.2 with
      | .group hosts vars => (p.1, .group (hosts ++ [ip]) vars)
      | v => (p.1, v)
    else p)

/-- Line 130: `self.inventory['_meta']['hostvars'][ip] = host_vars`. -/
def set_hostvar (inv : Inventory) (ip : String) (hv : List (String × String)) :
    Inventory :=
  inv.map (fun p =>
    if p.1 = "_meta" then
      match p.2 with
      | .meta hostvars => (p.1, .meta (dictSet hostvars ip hv))
      | v => (p.1, v)
    else p)

/-- Lines 92-108: the OS-name → group-name if/elif chain; `none` is the
warn-and-skip branch. -/
def os_group_name (os : String) : Option String :=
  if os = "UBUNTU_22_04" then some "ubuntu_22_04_workspaces"
  else if os = "AMAZON_LINUX_2" then some "amazon_linux_2_workspaces"
  else if os = "WINDOWS_SERVER_2016" then some "windows_server_2016_workspaces"
  else if os = "WINDOWS_SERVER_2019" then some "windows_server_2019_workspaces"
  else if os = "WINDOWS_SERVER_2022" then some "windows_server_2022_workspaces"
  else if os = "WINDOWS_10" then some "windows_10_workspaces"
  else if os = "WINDOWS_11" then some "windows_11_workspaces"
  else none

/-- Python `s.startswith(pre)`, modelled over the strings' character lists. -/
def pyStartsWith (s pre : String) : Bool := pre.data.isPrefixOf s.data

/-- Lines 117-128: the connection-variable dict for a host. -/
def host_vars_for (group_name : String) (computer_name : String) :
    List (String × String) :=
  if pyStartsWith group_name "windows" then
    [("ansible_connection", "winrm"),
     ("ansible_winrm_transport", "kerberos"),
     ("ansible_winrm_port", "5985"),
     ("ansible_winrm_kerberos_hostname_override", computer_name)]
  else
    [("ansible_connection", "ssh"),
     ("ansible_user", "ansible")]

/-- Lines 136-139: the tag-group loop, ensuring each tag-derived group
exists and appending the host's IP to it. -/
def add_tag_groups (inv : Inventory) (names : List String) (ip : String) :
    Inventory :=
  names.foldl (fun inv grp_name => append_host (ensure_group inv grp_name) grp_name ip) inv

/-- One iteration of the loop of `generate_inventory` (lines 82-139).  The
accumulator carries the inventory together with the list of records warned
about on line 107. -/
def process_workspace (describe_tags : String → Except String DescribeTagsResponse)
    (acc : Inventory × List Workspace) (ws : Workspace) :
    Except String (Inventory × List Workspace) :=
  let inv := acc.1
  let warnings := acc.2
  let state := wsState ws
  if state ≠ "AVAILABLE" then .ok (inv, warnings)
  else
    let computer_name := wsComputerName ws
    let os := wsOs ws
    let workspace_id := wsId ws
    match os_group_name os with
    | none => .ok (inv, warnings ++ [ws])
    | some group_name =>
      let ip_address := wsIp ws
      let inv := ensure_group inv group_name
      let inv := append_host inv group_name ip_address
      let host_vars := host_vars_for group_name computer_name
      let inv := set_hostvar inv ip_address host_vars
      match get_tags describe_tags workspace_id with
      | .error e => .error e
      | .ok group_names => .ok (add_tag_groups inv group_names ip_address, warnings)

/-- The `for ws in self.workspaces` loop, stopping at the first exception. -/
def run_workspaces (describe_tags : String → Except String DescribeTagsResponse) :
    Inventory × List Workspace → List Workspace →
    Except String (Inventory × List Workspace)
  | acc, [] => .ok acc
  | acc, ws :: rest =>
    match process_workspace describe_tags acc ws with
    | .error e => .error e
    | .ok acc' => run_workspaces describe_tags acc' rest

/-- `generate_inventory` (lines 80-140), starting from
`{'_meta': {'hostvars': {}}}`. -/
def generate_inventory (describe_tags : String → Except String DescribeTagsResponse)
    (workspaces : List Workspace) :
    Except String (Inventory × List Workspace) :=
  run_workspaces describe_tags ([("_meta", .meta [])], []) workspaces

/-- The hostvars dict stored under the reserved `_meta` key. -/
def hostvarsOf (inv : Inventory) : List (String × List (String × String)) :=
  match lookupKey inv "_meta" with
  | some (.meta hv) => hv
  | _ => []

/-- All IPs appearing in the host list of any group of the inventory. -/
def groupHosts (inv : Inventory) : List String :=
  inv.foldr
    (fun p acc =>
      match p.2 with
      | .group hosts _ => hosts ++ acc
      | .meta _ => acc)
    []

/-- A record that passes both the state filter and the OS classification. -/
def classified (ws : Workspace) : Prop :=
  wsState ws = "AVAILABLE" ∧ (os_group_name (wsOs ws)).isSome = true

instance (ws : Workspace) : Decidable (classified ws) := by
  unfold classified; infer_instance

/-- Modelled from the spec: "accumulate into an ordered set (first-seen
order, no duplicate names)" — keep the first occurrence of each string,
dropping later repeats. -/
def firstSeenDedup : List String → List String
  | [] => []
  | x :: xs => x :: firstSeenDedup (xs.filter (fun y => y ≠ x))
termination_by l => l.length
decreasing_by
  simp_wf
  exact Nat.lt_succ_of_le (List.length_filter_le _ _)

/-- A record that triggers the unsupported-OS warning of line 107. -/
def warnPred (ws : Workspace) : Bool :=
  (wsState ws == "AVAILABLE") && (os_group_name (wsOs ws)).isNone

/-- Invariant carried through the record loop: the reserved meta entry is
present, hostvars keys are distinct, every grouped IP has a hostvars key,
and the hostvars keys are exactly the IPs of the classified records
processed so far. -/
def okInv (inv : Inventory) (processed : List Workspace) : Prop :=
  (∃ m, lookupKey inv "_meta" = some (.meta m)) ∧
  ((hostvarsOf inv).map Prod.fst).Nodup ∧
  (∀ x ∈ groupHosts inv, x ∈ (hostvarsOf inv).map Prod.fst) ∧
  (∀ x, x ∈ (hostvarsOf inv).map Prod.fst ↔
    ∃ ws ∈ processed, classified ws ∧ wsIp ws = x)

/-- Parsed command-line arguments of `main` (lines 147-153):
`--region`, `--list`, and the mutually exclusive `--directory-id` /
`--workspace-ids`. -/
structure Args where
  region : Option String
  list : Bool
  directory_id : Option String
  workspace_ids : Option (List String)
deriving DecidableEq

/-- The environment variables the script consults (lines 165 and 172). -/
structure Env where
  AWS_REGION : Option String
  DIRECTORY_ID : Option String
deriving DecidableEq

/-- Python truthiness of an optional string: `None` and `''` are falsy. -/
def strTruthy : Option String → Bool
  | none => false
  | some s => !(s == "")

/-- Python truthiness of an optional list: `None` and `[]` are falsy. -/
def listTruthy : Option (List String) → Bool
  | none => false
  | some l => !l.isEmpty

/-- The filter `get_workspaces` passes to the paginated listing. -/
inductive WsFilter where
  | byIds (ids : List String)
  | byDirectory (d : String)
  | all
deriving DecidableEq

/-- `get_workspaces` (lines 52-78): pick the filter by truthiness of the
specific-workspace list, then of the directory id; the paginated listing
itself is the external record source. -/
def get_workspaces (fetch : WsFilter → Except String (List Workspace))
    (workspaces_directory : Option String) (specific_workspaces : Option (List String)) :
    Except String (List Workspace) :=
  if listTruthy specific_workspaces then fetch (.byIds (specific_workspaces.getD []))
  else if strTruthy workspaces_directory then fetch (.byDirectory (workspaces_directory.getD ""))
  else fetch .all

/-- Observable outcome of one invocation of the script. -/
inductive RunOutcome where
  | help
  | regionError
  | errorCaught (msg : String)
  | printed (inv : Inventory)
deriving DecidableEq

/-- `main` (lines 146-180) together with the `__main__` wrapper (lines
184-188), returning the outcome paired with the process exit status.
Line 170's `exit(1)` raises `SystemExit`, which the `except Exception`
handler does not catch, so the missing-region error exits with status 1;
any other exception is caught at line 187, printed as
`Error / Exception: ...`, and the process then ends normally with
status 0. -/
def toplevel (args : Args) (env : Env)
    (fetch : WsFilter → Except String (List Workspace))
    (describe_tags : String → Except String DescribeTagsResponse) :
    RunOutcome × Nat :=
  if !args.list && !listTruthy args.workspace_ids then (.help, 0)
  else
    let region := if strTruthy args.region then args.region else env.AWS_REGION
    if !strTruthy region then (.regionError, 1)
    else
      let workspaces_directory :=
        if strTruthy args.directory_id then args.directory_id else env.DIRECTORY_ID
      match get_workspaces fetch workspaces_directory args.workspace_ids with
      | .error e => (.errorCaught e, 0)
      | .ok workspaces =>
        match generate_inventory describe_tags workspaces with
        | .error e => (.errorCaught e, 0)
        | .ok (inv, _warns) => (.printed inv, 0)

/-! ### Concrete sample inputs used by the witnesses -/

/-- A tag list with one `Team=Infra` tag. -/
def sampleTags : List TagPair := [⟨some "Team", some "Infra"⟩]

/-- A tag lookup that always returns `sampleTags`. -/
def sampleDt : String → Except String DescribeTagsResponse :=
  fun _ => .ok ⟨some sampleTags⟩

/-- A tag lookup that always returns an empty tag list. -/
def emptyDt : String → Except String DescribeTagsResponse :=
  fun _ => .ok ⟨some []⟩

/-- A tag lookup that always fails. -/
def failDt : String → Except String DescribeTagsResponse :=
  fun _ => .error "boom"

/-- An available Ubuntu 22.04 record at 10.0.0.5. -/
def sampleUbuntu : Workspace :=
  ⟨some "AVAILABLE", some "U-5", some ⟨some "UBUNTU_22_04"⟩, some "ws-1", some "10.0.0.5"⟩

/-- The inventory built from `[sampleUbuntu]` with `sampleDt`. -/
def sampleUbuntuInv : Inventory :=
  [("_meta", .meta [("10.0.0.5", [("ansible_connection", "ssh"), ("ansible_user", "ansible")])]),
   ("ubuntu_22_04_workspaces", .group ["10.0.0.5"] []),
   ("team-infra", .group ["10.0.0.5"] [])]

/-- An available Windows 11 record at 10.0.0.9 with computer name WK-9. -/
def sampleWindows : Workspace :=
  ⟨some "AVAILABLE", some "WK-9", some ⟨some "WINDOWS_11"⟩, some "ws-2", some "10.0.0.9"⟩

/-- The inventory built from `[sampleWindows]` with `emptyDt`. -/
def sampleWindowsInv : Inventory :=
  [("_meta", .meta [("10.0.0.9",
      [("ansible_connection", "winrm"), ("ansible_winrm_transport", "kerberos"),
       ("ansible_winrm_port", "5985"), ("ansible_winrm_kerberos_hostname_override", "WK-9")])]),
   ("windows_11_workspaces", .group ["10.0.0.9"] [])]

/-- A stopped record at 10.0.0.7. -/
def stoppedWs : Workspace :=
  ⟨some "STOPPED", none, some ⟨some "UBUNTU_22_04"⟩, some "ws-7", some "10.0.0.7"⟩

/-- An available Ubuntu record sharing the IP 10.0.0.7. -/
def aliasWs : Workspace :=
  ⟨some "AVAILABLE", none, some ⟨some "UBUNTU_22_04"⟩, some "ws-8", some "10.0.0.7"⟩

/-- An available record with an OS outside the classification table,
also at 10.0.0.7. -/
def unsupWs : Workspace :=
  ⟨some "AVAILABLE", none, some ⟨some "SOME_FUTURE_OS"⟩, some "ws-9", some "10.0.0.7"⟩

/-- An available Ubuntu record with no IP address field. -/
def noIpWs : Workspace :=
  ⟨some "AVAILABLE", none, some ⟨some "UBUNTU_22_04"⟩, none, none⟩

/-- The inventory built from `[stoppedWs, aliasWs]` (and from `[unsupWs, aliasWs]`). -/
def aliasInv : Inventory :=
  [("_meta", .meta [("10.0.0.7", [("ansible_connection", "ssh"), ("ansible_user", "ansible")])]),
   ("ubuntu_22_04_workspaces", .group ["10.0.0.7"] [])]

/-- Arguments `--region us-west-2 --list`. -/
def listArgs : Args := ⟨some "us-west-2", true, none, none⟩

/-- Arguments `--region us-west-2 --workspace-ids ws-1` (no `--list`). -/
def idsArgs : Args := ⟨some "us-west-2", false, none, some ["ws-1"]⟩

/-- An empty environment. -/
def emptyEnv : Env := ⟨none, none⟩

/-- A record source returning `[sampleUbuntu]` for every filter. -/
def oneRecordFetch : WsFilter → Except String (List Workspace) :=
  fun _ => .ok [sampleUbuntu]

/-- A record source returning no records. -/
def emptyFetch : WsFilter → Except String (List Workspace) :=
  fun _ => .ok []

/-! ### Association-list (Python dict) lemmas -/

theorem containsKey_iff {α : Type} (m : List (String × α)) (k : String) :
    containsKey m k = true ↔ k ∈ m.map Prod.fst := by
  induction m with
  | nil => simp [containsKey]
  | cons p rest ih =>
    obtain ⟨k', v⟩ := p
    by_cases h : k' = k
    · subst h; simp [containsKey]
    · have h' : ¬ k = k' := fun hh => h hh.symm
      simp [containsKey, h, h', ih]

theorem containsKey_false_iff {α : Type} (m : List (String × α)) (k : String) :
    containsKey m k = false ↔ k ∉ m.map Prod.fst := by
  rw [← containsKey_iff]
  cases h : containsKey m k <;> simp

theorem lookupKey_eq_none_iff {α : Type} (m : List (String × α)) (k : String) :
    lookupKey m k = none ↔ containsKey m k = false := by
  induction m with
  | nil => simp [lookupKey, containsKey]
  | cons p rest ih =>
    obtain ⟨k', v⟩ := p
    by_cases h : k' = k <;> simp [lookupKey, containsKey, h, ih]

theorem containsKey_of_lookupKey {α : Type} {m : List (String × α)} {k : String}
    {v : α} (h : lookupKey m k = some v) : containsKey m k = true := by
  cases hc : containsKey m k with
  | true => rfl
  | false => rw [(lookupKey_eq_none_iff m k).mpr hc] at h; exact Option.noConfusion h

theorem lookupKey_append_of_isSome {α : Type} {m : List (String × α)} {k : String}
    (m' : List (String × α)) (h : (lookupKey m k).isSome = true) :
    lookupKey (m ++ m') k = lookupKey m k := by
  induction m with
  | nil => simp [lookupKey] at h
  | cons p rest ih =>
    obtain ⟨k', v⟩ := p
    by_cases hk : k' = k <;> simp_all [lookupKey]

theorem lookupKey_append_right {α : Type} {m : List (String × α)} {k : String}
    (m' : List (String × α)) (h : containsKey m k = false) :
    lookupKey (m ++ m') k = lookupKey m' k := by
  induction m with
  | nil => simp
  | cons p rest ih =>
    obtain ⟨k', v⟩ := p
    by_cases hk : k' = k <;> simp_all [lookupKey, containsKey]

theorem map_fst_setAll {α : Type} (m : List (String × α)) (k : String) (v : α) :
    (m.map (fun p => if p.1 = k then (k, v) else p)).map Prod.fst = m.map Prod.fst := by
  induction m with
  | nil => rfl
  | cons p rest ih =>
    obtain ⟨k', v'⟩ := p
    by_cases h : k' = k
    · subst h; simp [ih]
    · simp [h, ih]

theorem map_fst_dictSet {α : Type} (m : List (String × α)) (k : String) (v : α) :
    (dictSet m k v).map Prod.fst =
      if containsKey m k then m.map Prod.fst else m.map Prod.fst ++ [k] := by
  unfold dictSet
  cases hc : containsKey m k with
  | true => rw [if_pos rfl, if_pos rfl]; exact map_fst_setAll m k v
  | false => rw [if_neg (by simp), if_neg (by simp)]; simp

theorem mem_map_fst_dictSet {α : Type} (m : List (String × α)) (k x : String) (v : α) :
    x ∈ (dictSet m k v).map Prod.fst ↔ x ∈ m.map Prod.fst ∨ x = k := by
  rw [map_fst_dictSet]
  cases hc : containsKey m k with
  | true =>
    have hk : k ∈ m.map Prod.fst := (containsKey_iff m k).mp hc
    rw [if_pos rfl]
    constructor
    · exact Or.inl
    · rintro (h | rfl) <;> [exact h; exact hk]
  | false => rw [if_neg (by simp)]; simp

theorem nodup_map_fst_dictSet {α : Type} (m : List (String × α)) (k : String) (v : α)
    (h : (m.map Prod.fst).Nodup) : ((dictSet m k v).map Prod.fst).Nodup := by
  rw [map_fst_dictSet]
  cases hc : containsKey m k with
  | true => simpa using h
  | false =>
    have hk : k ∉ m.map Prod.fst := (containsKey_false_iff m k).mp hc
    simp [List.nodup_append, h, hk]

theorem lookupKey_setAll_self {α : Type} (m : List (String × α)) (k : String) (v : α)
    (hc : containsKey m k = true) :
    lookupKey (m.map (fun p => if p.1 = k then (k, v) else p)) k = some v := by
  induction m with
  | nil => simp [containsKey] at hc
  | cons p rest ih =>
    obtain ⟨k', v'⟩ := p
    by_cases h : k' = k
    · subst h
      rw [List.map_cons, if_pos (show ((k', v') : String × α).1 = k' from rfl)]
      simp [lookupKey]
    · simp only [containsKey, if_neg h] at hc
      rw [List.map_cons, if_neg (show ¬ ((k', v') : String × α).1 = k from h)]
      simp only [lookupKey, if_neg h]
      exact ih hc

theorem lookupKey_dictSet_self {α : Type} (m : List (String × α)) (k : String) (v : α) :
    lookupKey (dictSet m k v) k = some v := by
  unfold dictSet
  cases hc : containsKey m k with
  | true => rw [if_pos rfl]; exact lookupKey_setAll_self m k v hc
  | false =>
    rw [if_neg (by simp), lookupKey_append_right _ hc]
    simp [lookupKey]

theorem containsKey_dictSet {α : Type} (m : List (String × α)) (k x : String) (v : α) :
    containsKey (dictSet m k v) x = true ↔ containsKey m x = true ∨ x = k := by
  rw [containsKey_iff, mem_map_fst_dictSet, containsKey_iff]

/-! ### Lemmas about the inventory operations -/

theorem hostvarsOf_of_lookup {inv : Inventory}
    {m : List (String × List (String × String))}
    (h : lookupKey inv "_meta" = some (.meta m)) : hostvarsOf inv = m := by
  unfold hostvarsOf
  rw [h]

theorem lookupKey_ensure_group_of_isSome {inv : Inventory} {k : String}
    (g : String) (h : (lookupKey inv k).isSome = true) :
    lookupKey (ensure_group inv g) k = lookupKey inv k := by
  unfold ensure_group
  cases hc : containsKey inv g with
  | true => rw [if_pos rfl]
  | false => rw [if_neg (by simp)]; exact lookupKey_append_of_isSome _ h

theorem lookupKey_meta_append_host (inv : Inventory) (g ip : String)
    {m : List (String × List (String × String))}
    (h : lookupKey inv "_meta" = some (.meta m)) :
    lookupKey (append_host inv g ip) "_meta" = some (.meta m) := by
  induction inv with
  | nil => simp [lookupKey] at h
  | cons p rest ih =>
    obtain ⟨k', v'⟩ := p
    by_cases hk : k' = "_meta"
    · subst hk
      simp only [lookupKey, if_pos rfl] at h
      cases h
      unfold append_host
      by_cases hg : ("_meta", InvValue.meta m).1 = g
      · rw [List.map_cons, if_pos hg]
        simp [lookupKey]
      · rw [List.map_cons, if_neg hg]
        simp [lookupKey]
    · simp only [lookupKey, if_neg hk] at h
      unfold append_host
      by_cases hg : ((k', v') : String × InvValue).1 = g
      · rw [List.map_cons, if_pos hg]
        cases v' with
        | meta hv => simpa [lookupKey, hk] using ih h
        | group hosts vars => simpa [lookupKey, hk] using ih h
      · rw [List.map_cons, if_neg hg]
        simpa [lookupKey, hk] using ih h

theorem lookupKey_meta_set_hostvar (inv : Inventory) (ip : String)
    (hv : List (String × String)) {m : List (String × List (String × String))}
    (h : lookupKey inv "_meta" = some (.meta m)) :
    lookupKey (set_hostvar inv ip hv) "_meta" = some (.meta (dictSet m ip hv)) := by
  induction inv with
  | nil => simp [lookupKey] at h
  | cons p rest ih =>
    obtain ⟨k', v'⟩ := p
    by_cases hk : k' = "_meta"
    · subst hk
      simp only [lookupKey, if_pos rfl] at h
      cases h
      unfold set_hostvar
      rw [List.map_cons, if_pos (show (("_meta", InvValue.meta m) : String × InvValue).1 = "_meta" from rfl)]
      simp [lookupKey]
    · simp only [lookupKey, if_neg hk] at h
      unfold set_hostvar
      rw [List.map_cons, if_neg (show ¬ ((k', v') : String × InvValue).1 = "_meta" from hk)]
      simpa [lookupKey, hk] using ih h

theorem lookupKey_meta_add_tag_groups (inv : Inventory) (names : List String)
    (ip : String) {m : List (String × List (String × String))}
    (h : lookupKey inv "_meta" = some (.meta m)) :
    lookupKey (add_tag_groups inv names ip) "_meta" = some (.meta m) := by
  induction names generalizing inv with
  | nil => exact h
  | cons n rest ih =>
    unfold add_tag_groups
    rw [List.foldl_cons]
    apply ih
    apply lookupKey_meta_append_host
    rw [lookupKey_ensure_group_of_isSome n (by rw [h]; rfl)]
    exact h

theorem groupHosts_nil : groupHosts [] = [] := rfl

theorem groupHosts_cons_group (k : String) (hosts : List String)
    (vars : List (String × String)) (rest : Inventory) :
    groupHosts ((k, .group hosts vars) :: rest) = hosts ++ groupHosts rest := rfl

theorem groupHosts_cons_meta (k : String)
    (m : List (String × List (String × String))) (rest : Inventory) :
    groupHosts ((k, .meta m) :: rest) = groupHosts rest := rfl

theorem groupHosts_append (inv inv' : Inventory) :
    groupHosts (inv ++ inv') = groupHosts inv ++ groupHosts inv' := by
  induction inv with
  | nil => rfl
  | cons p rest ih =>
    obtain ⟨k', v'⟩ := p
    cases v' with
    | meta m => rw [List.cons_append, groupHosts_cons_meta, groupHosts_cons_meta, ih]
    | group hosts vars =>
      rw [List.cons_append, groupHosts_cons_group, groupHosts_cons_group, ih,
        List.append_assoc]

theorem groupHosts_ensure_group (inv : Inventory) (g : String) :
    groupHosts (ensure_group inv g) = groupHosts inv := by
  unfold ensure_group
  cases hc : containsKey inv g with
  | true => rw [if_pos rfl]
  | false =>
    rw [if_neg (by simp), groupHosts_append, groupHosts_cons_group, groupHosts_nil]
    simp

theorem mem_groupHosts_append_host {x : String} (inv : Inventory) (g ip : String)
    (h : x ∈ groupHosts (append_host inv g ip)) :
    x ∈ groupHosts inv ∨ x = ip := by
  induction inv with
  | nil => simp [append_host, groupHosts_nil] at h
  | cons p rest ih =>
    obtain ⟨k', v'⟩ := p
    unfold append_host at h ih
    rw [List.map_cons] at h
    cases v' with
    | meta hv =>
      by_cases hg : ((k', InvValue.meta hv) : String × InvValue).1 = g
      · rw [if_pos hg] at h
        rw [groupHosts_cons_meta] at h
        rw [groupHosts_cons_meta]
        exact ih h
      · rw [if_neg hg] at h
        rw [groupHosts_cons_meta] at h
        rw [groupHosts_cons_meta]
        exact ih h
    | group hosts vars =>
      by_cases hg : ((k', InvValue.group hosts vars) : String × InvValue).1 = g
      · rw [if_pos hg] at h
        rw [groupHosts_cons_group, List.append_assoc] at h
        rw [groupHosts_cons_group]
        rcases List.mem_append.mp h with h1 | h2
        · exact Or.inl (List.mem_append.mpr (Or.inl h1))
        · rcases List.mem_append.mp h2 with h3 | h4
          · exact Or.inr (by simpa using h3)
          · rcases ih h4 with h5 | h6
            · exact Or.inl (List.mem_append.mpr (Or.inr h5))
            · exact Or.inr h6
      · rw [if_neg hg] at h
        rw [groupHosts_cons_group] at h
        rw [groupHosts_cons_group]
        rcases List.mem_append.mp h with h1 | h2
        · exact Or.inl (List.mem_append.mpr (Or.inl h1))
        · rcases ih h2 with h5 | h6
          · exact Or.inl (List.mem_append.mpr (Or.inr h5))
          · exact Or.inr h6

theorem groupHosts_set_hostvar (inv : Inventory) (ip : String)
    (hv : List (String × String)) :
    groupHosts (set_hostvar inv ip hv) = groupHosts inv := by
  induction inv with
  | nil => rfl
  | cons p rest ih =>
    obtain ⟨k', v'⟩ := p
    unfold set_hostvar at ih ⊢
    rw [List.map_cons]
    cases v' with
    | meta m =>
      by_cases hk : ((k', InvValue.meta m) : String × InvValue).1 = "_meta"
      · rw [if_pos hk, groupHosts_cons_meta, groupHosts_cons_meta, ih]
      · rw [if_neg hk, groupHosts_cons_meta, groupHosts_cons_meta, ih]
    | group hosts vars =>
      by_cases hk : ((k', InvValue.group hosts vars) : String × InvValue).1 = "_meta"
      · rw [if_pos hk, groupHosts_cons_group, groupHosts_cons_group, ih]
      · rw [if_neg hk, groupHosts_cons_group, groupHosts_cons_group, ih]

theorem mem_groupHosts_add_tag_groups {x : String} (names : List String)
    (inv : Inventory) (ip : String)
    (h : x ∈ groupHosts (add_tag_groups inv names ip)) :
    x ∈ groupHosts inv ∨ x = ip := by
  induction names generalizing inv with
  | nil => exact Or.inl h
  | cons n rest ih =>
    unfold add_tag_groups at h
    rw [List.foldl_cons] at h
    rcases ih _ h with h1 | h2
    · rcases mem_groupHosts_append_host _ n ip h1 with h3 | h4
      · rw [groupHosts_ensure_group] at h3
        exact Or.inl h3
      · exact Or.inr h4
    · exact Or.inr h2

theorem lookupKey_append_host_ne {n : String} (inv : Inventory) (g ip : String)
    (hne : n ≠ g) : lookupKey (append_host inv g ip) n = lookupKey inv n := by
  induction inv with
  | nil => rfl
  | cons p rest ih =>
    obtain ⟨k', v'⟩ := p
    unfold append_host at ih ⊢
    rw [List.map_cons]
    by_cases hg : ((k', v') : String × InvValue).1 = g
    · rw [if_pos hg]
      have hk'n : ¬ k' = n := fun hh => hne (hh ▸ hg)
      cases v' with
      | meta hv => simp only [lookupKey, if_neg hk'n]; exact ih
      | group hosts vars => simp only [lookupKey, if_neg hk'n]; exact ih
    · rw [if_neg hg]
      by_cases hk'n : k' = n
      · simp [lookupKey, hk'n]
      · simp only [lookupKey, if_neg hk'n]; exact ih

theorem lookupKey_set_hostvar_ne {n : String} (inv : Inventory) (ip : String)
    (hv : List (String × String)) (hne : n ≠ "_meta") :
    lookupKey (set_hostvar inv ip hv) n = lookupKey inv n := by
  induction inv with
  | nil => rfl
  | cons p rest ih =>
    obtain ⟨k', v'⟩ := p
    unfold set_hostvar at ih ⊢
    rw [List.map_cons]
    by_cases hg : ((k', v') : String × InvValue).1 = "_meta"
    · rw [if_pos hg]
      have hk'n : ¬ k' = n := fun hh => hne (hh ▸ hg)
      cases v' with
      | meta hvv => simp only [lookupKey, if_neg hk'n]; exact ih
      | group hosts vars => simp only [lookupKey, if_neg hk'n]; exact ih
    · rw [if_neg hg]
      by_cases hk'n : k' = n
      · simp [lookupKey, hk'n]
      · simp only [lookupKey, if_neg hk'n]; exact ih

theorem lookupKey_append_single_ne {α : Type} {n g : String} (m : List (String × α))
    (v : α) (hne : n ≠ g) : lookupKey (m ++ [(g, v)]) n = lookupKey m n := by
  induction m with
  | nil => simp only [List.nil_append, lookupKey, if_neg (fun hh : g = n => hne hh.symm)]
  | cons p rest ih =>
    obtain ⟨k', v'⟩ := p
    by_cases hk'n : k' = n
    · simp [lookupKey, hk'n]
    · simp only [List.cons_append, lookupKey, if_neg hk'n]; exact ih

theorem lookupKey_ensure_group_ne {n : String} (inv : Inventory) (g : String)
    (hne : n ≠ g) : lookupKey (ensure_group inv g) n = lookupKey inv n := by
  unfold ensure_group
  cases hc : containsKey inv g with
  | true => rw [if_pos rfl]
  | false => rw [if_neg (by simp)]; exact lookupKey_append_single_ne inv _ hne

theorem lookupKey_add_tag_groups_ne {n : String} (names : List String)
    (inv : Inventory) (ip : String) (hne : ∀ nm ∈ names, n ≠ nm) :
    lookupKey (add_tag_groups inv names ip) n = lookupKey inv n := by
  induction names generalizing inv with
  | nil => rfl
  | cons nm rest ih =>
    unfold add_tag_groups at ih ⊢
    rw [List.foldl_cons]
    rw [ih _ (fun x hx => hne x (List.mem_cons_of_mem _ hx))]
    rw [lookupKey_append_host_ne _ _ _ (hne nm (List.mem_cons_self _ _)),
      lookupKey_ensure_group_ne _ _ (hne nm (List.mem_cons_self _ _))]

theorem lookupKey_append_host_group_self {inv : Inventory} {g : String}
    {hs : List String} {vs : List (String × String)} (ip : String)
    (h : lookupKey inv g = some (.group hs vs)) :
    lookupKey (append_host inv g ip) g = some (.group (hs ++ [ip]) vs) := by
  induction inv with
  | nil => simp [lookupKey] at h
  | cons p rest ih =>
    obtain ⟨k', v'⟩ := p
    unfold append_host at ih ⊢
    rw [List.map_cons]
    by_cases hk : k' = g
    · subst hk
      simp only [lookupKey, if_pos rfl] at h
      cases h
      rw [if_pos (show ((k', InvValue.group hs vs) : String × InvValue).1 = k' from rfl)]
      simp [lookupKey]
    · rw [if_neg (show ¬ ((k', v') : String × InvValue).1 = g from hk)]
      simp only [lookupKey, if_neg hk] at h
      simp only [lookupKey, if_neg hk]
      exact ih h

/-! ### Tag-derived group names -/

theorem mem_firstSeenDedup {x : String} : ∀ {l : List String},
    x ∈ firstSeenDedup l → x ∈ l
  | [], h => by simp [firstSeenDedup] at h
  | y :: ys, h => by
    rw [firstSeenDedup] at h
    rcases List.mem_cons.mp h with h1 | h2
    · exact List.mem_cons.mpr (Or.inl h1)
    · exact List.mem_cons.mpr (Or.inr (List.mem_of_mem_filter (mem_firstSeenDedup h2)))
termination_by l => l.length
decreasing_by
  simp_wf
  exact Nat.lt_succ_of_le (List.length_filter_le _ _)

theorem nodup_firstSeenDedup : ∀ (l : List String), (firstSeenDedup l).Nodup
  | [] => by simp [firstSeenDedup]
  | y :: ys => by
    rw [firstSeenDedup]
    refine List.nodup_cons.mpr ⟨?_, nodup_firstSeenDedup _⟩
    intro hy
    have := List.of_mem_filter (mem_firstSeenDedup hy)
    simp at this
termination_by l => l.length
decreasing_by
  simp_wf
  exact Nat.lt_succ_of_le (List.length_filter_le _ _)

theorem foldl_names_eq (l : List String) : ∀ acc : List String,
    l.foldl (fun gs n => if n ∈ gs then gs else gs ++ [n]) acc
      = acc ++ firstSeenDedup (l.filter (fun n => n ∉ acc)) := by
  induction l with
  | nil => intro acc; simp [firstSeenDedup]
  | cons x xs ih =>
    intro acc
    rw [List.foldl_cons]
    by_cases hx : x ∈ acc
    · rw [if_pos hx, List.filter_cons_of_neg (by simpa using hx), ih]
    · rw [if_neg hx, List.filter_cons_of_pos (by simpa using hx), ih]
      rw [firstSeenDedup, List.filter_filter]
      have hpred : ∀ n ∈ xs,
          (decide (n ∉ acc ++ [x])) = ((decide ¬n = x) && decide (n ∉ acc)) := by
        intro n _
        by_cases h1 : n ∈ acc <;> by_cases h2 : n = x <;>
          simp [h1, h2, List.mem_append]
      rw [List.filter_congr hpred]
      simp

theorem tag_group_names_eq (tags_list : List TagPair) :
    tag_group_names tags_list = firstSeenDedup (tags_list.map tag_name) := by
  unfold tag_group_names
  rw [← List.foldl_map tag_name (fun gs n => if n ∈ gs then gs else gs ++ [n])]
  rw [foldl_names_eq]
  simp

theorem mem_tag_group_names {n : String} {tags_list : List TagPair}
    (h : n ∈ tag_group_names tags_list) : ∃ t ∈ tags_list, n = tag_name t := by
  rw [tag_group_names_eq] at h
  have := mem_firstSeenDedup h
  rcases List.mem_map.mp this with ⟨t, ht, rfl⟩
  exact ⟨t, ht, rfl⟩

theorem hyphen_mem_tag_name (t : TagPair) : '-' ∈ (tag_name t).data := by
  unfold tag_name
  rw [String.data_append, String.data_append]
  refine List.mem_append.mpr (Or.inl (List.mem_append.mpr (Or.inr ?_)))
  simp [String.data]

theorem hyphen_mem_of_mem_tag_group_names {n : String} {tags_list : List TagPair}
    (h : n ∈ tag_group_names tags_list) : '-' ∈ n.data := by
  rcases mem_tag_group_names h with ⟨t, _, rfl⟩
  exact hyphen_mem_tag_name t

/-! ### Step characterization of `process_workspace` -/

theorem process_not_available {dt : String → Except String DescribeTagsResponse}
    {acc : Inventory × List Workspace} {ws : Workspace}
    (h : wsState ws ≠ "AVAILABLE") : process_workspace dt acc ws = .ok acc := by
  unfold process_workspace
  rw [if_pos h]

theorem process_unsupported {dt : String → Except String DescribeTagsResponse}
    {acc : Inventory × List Workspace} {ws : Workspace}
    (h1 : wsState ws = "AVAILABLE") (h2 : os_group_name (wsOs ws) = none) :
    process_workspace dt acc ws = .ok (acc.1, acc.2 ++ [ws]) := by
  unfold process_workspace
  rw [if_neg (by simp [h1])]
  simp only [h2]

theorem process_classified {dt : String → Except String DescribeTagsResponse}
    {acc : Inventory × List Workspace} {ws : Workspace} {g : String}
    (h1 : wsState ws = "AVAILABLE") (h2 : os_group_name (wsOs ws) = some g) :
    process_workspace dt acc ws =
      match get_tags dt (wsId ws) with
      | .error e => .error e
      | .ok group_names =>
          .ok (add_tag_groups
                 (set_hostvar
                   (append_host (ensure_group acc.1 g) g (wsIp ws))
                   (wsIp ws) (host_vars_for g (wsComputerName ws)))
                 group_names (wsIp ws),
               acc.2) := by
  unfold process_workspace
  rw [if_neg (by simp [h1])]
  simp only [h2]

theorem run_workspaces_cons (dt : String → Except String DescribeTagsResponse)
    (acc : Inventory × List Workspace) (ws : Workspace) (rest : List Workspace) :
    run_workspaces dt acc (ws :: rest) =
      match process_workspace dt acc ws with
      | .error e => .error e
      | .ok acc' => run_workspaces dt acc' rest := rfl

theorem run_warns : ∀ (records : List Workspace)
    (dt : String → Except String DescribeTagsResponse)
    (acc : Inventory × List Workspace) (inv : Inventory) (warns : List Workspace),
    run_workspaces dt acc records = .ok (inv, warns) →
    warns = acc.2 ++ records.filter warnPred := by
  intro records
  induction records with
  | nil =>
    intro dt acc inv warns h
    rw [run_workspaces] at h
    cases h
    simp
  | cons ws rest ih =>
    intro dt acc inv warns h
    rw [run_workspaces_cons] at h
    cases hp : process_workspace dt acc ws with
    | error e => rw [hp] at h; exact Except.noConfusion h
    | ok acc' =>
      rw [hp] at h
      by_cases hs : wsState ws = "AVAILABLE"
      · cases hos : os_group_name (wsOs ws) with
        | none =>
          rw [process_unsupported hs hos] at hp
          cases hp
          have := ih dt _ inv warns h
          rw [this, List.filter_cons_of_pos (by simp [warnPred, hs, hos])]
          simp
        | some g =>
          rw [process_classified hs hos] at hp
          cases hgt : get_tags dt (wsId ws) with
          | error e => rw [hgt] at hp; exact Except.noConfusion hp
          | ok names =>
            rw [hgt] at hp
            cases hp
            have := ih dt _ inv warns h
            rw [this, List.filter_cons_of_neg (by simp [warnPred, hos])]
      · rw [process_not_available hs] at hp
        cases hp
        have := ih dt _ inv warns h
        rw [this, List.filter_cons_of_neg (by simp [warnPred, hs])]

/-! ### The group/hostvars invariant of the build -/

theorem okInv_extend_notclassified {inv : Inventory} {processed : List Workspace}
    {ws : Workspace} (hw : ¬ classified ws) (h : okInv inv processed) :
    okInv inv (processed ++ [ws]) := by
  obtain ⟨h1, h2, h3, h4⟩ := h
  refine ⟨h1, h2, h3, fun x => ?_⟩
  rw [h4 x]
  constructor
  · rintro ⟨w, hw', hc, hx⟩
    exact ⟨w, List.mem_append.mpr (Or.inl hw'), hc, hx⟩
  · rintro ⟨w, hw', hc, hx⟩
    rcases List.mem_append.mp hw' with hmem | hmem
    · exact ⟨w, hmem, hc, hx⟩
    · rw [List.mem_singleton] at hmem
      subst hmem
      exact absurd hc hw

theorem process_preserves_okInv {dt : String → Except String DescribeTagsResponse}
    {acc acc' : Inventory × List Workspace} {ws : Workspace}
    {processed : List Workspace}
    (h : process_workspace dt acc ws = .ok acc')
    (hI : okInv acc.1 processed) : okInv acc'.1 (processed ++ [ws]) := by
  by_cases hs : wsState ws = "AVAILABLE"
  · cases hos : os_group_name (wsOs ws) with
    | none =>
      rw [process_unsupported hs hos] at h
      cases h
      exact okInv_extend_notclassified
        (fun hc => by simp [classified, hos] at hc) hI
    | some g =>
      rw [process_classified hs hos] at h
      cases hgt : get_tags dt (wsId ws) with
      | error e => rw [hgt] at h; exact Except.noConfusion h
      | ok names =>
        rw [hgt] at h
        cases h
        obtain ⟨⟨m, hm⟩, h2, h3, h4⟩ := hI
        have hmOf : hostvarsOf acc.1 = m := hostvarsOf_of_lookup hm
        set ip := wsIp ws with hip
        set hv := host_vars_for g (wsComputerName ws) with hhv
        have hm1 : lookupKey (ensure_group acc.1 g) "_meta" = some (.meta m) := by
          rw [lookupKey_ensure_group_of_isSome g (by rw [hm]; rfl)]; exact hm
        have hm2 : lookupKey (append_host (ensure_group acc.1 g) g ip) "_meta"
            = some (.meta m) := lookupKey_meta_append_host _ g ip hm1
        have hm3 : lookupKey (set_hostvar (append_host (ensure_group acc.1 g) g ip) ip hv)
            "_meta" = some (.meta (dictSet m ip hv)) :=
          lookupKey_meta_set_hostvar _ ip hv hm2
        have hm4 : lookupKey (add_tag_groups
              (set_hostvar (append_host (ensure_group acc.1 g) g ip) ip hv) names ip)
            "_meta" = some (.meta (dictSet m ip hv)) :=
          lookupKey_meta_add_tag_groups _ names ip hm3
        have hOf : hostvarsOf (add_tag_groups
              (set_hostvar (append_host (ensure_group acc.1 g) g ip) ip hv) names ip)
            = dictSet m ip hv := hostvarsOf_of_lookup hm4
        have hGH : ∀ x, x ∈ groupHosts (add_tag_groups
              (set_hostvar (append_host (ensure_group acc.1 g) g ip) ip hv) names ip) →
            x ∈ groupHosts acc.1 ∨ x = ip := by
          intro x hx
          rcases mem_groupHosts_add_tag_groups names _ ip hx with hx1 | hx2
          · rw [groupHosts_set_hostvar] at hx1
            rcases mem_groupHosts_append_host _ g ip hx1 with hx3 | hx4
            · rw [groupHosts_ensure_group] at hx3
              exact Or.inl hx3
            · exact Or.inr hx4
          · exact Or.inr hx2
        have hcl : classified ws := ⟨hs, by rw [hos]; rfl⟩
        refine ⟨⟨dictSet m ip hv, hm4⟩, ?_, ?_, ?_⟩
        · rw [hOf]
          exact nodup_map_fst_dictSet m ip hv (hmOf ▸ h2)
        · intro x hx
          rw [hOf, mem_map_fst_dictSet]
          rcases hGH x hx with hx1 | hx2
          · exact Or.inl (hmOf ▸ h3 x hx1)
          · exact Or.inr hx2
        · intro x
          rw [hOf, mem_map_fst_dictSet]
          constructor
          · rintro (hx1 | rfl)
            · rcases (h4 x).mp (hmOf ▸ hx1) with ⟨w, hw', hc, hxw⟩
              exact ⟨w, List.mem_append.mpr (Or.inl hw'), hc, hxw⟩
            · exact ⟨ws, List.mem_append.mpr (Or.inr (List.mem_singleton_self ws)),
                hcl, rfl⟩
          · rintro ⟨w, hw', hc, hxw⟩
            rcases List.mem_append.mp hw' with hmem | hmem
            · exact Or.inl (hmOf ▸ (h4 x).mpr ⟨w, hmem, hc, hxw⟩)
            · rw [List.mem_singleton] at hmem
              subst hmem
              exact Or.inr hxw.symm
  · rw [process_not_available hs] at h
    cases h
    exact okInv_extend_notclassified (fun hc => hs hc.1) hI

theorem run_preserves_okInv : ∀ (records : List Workspace)
    (dt : String → Except String DescribeTagsResponse)
    (acc : Inventory × List Workspace) (inv : Inventory) (warns : List Workspace)
    (processed : List Workspace),
    run_workspaces dt acc records = .ok (inv, warns) →
    okInv acc.1 processed → okInv inv (processed ++ records) := by
  intro records
  induction records with
  | nil =>
    intro dt acc inv warns processed h hI
    rw [run_workspaces] at h
    cases h
    simpa using hI
  | cons ws rest ih =>
    intro dt acc inv warns processed h hI
    rw [run_workspaces_cons] at h
    cases hp : process_workspace dt acc ws with
    | error e => rw [hp] at h; exact Except.noConfusion h
    | ok acc' =>
      rw [hp] at h
      have := ih dt acc' inv warns (processed ++ [ws]) h
        (process_preserves_okInv hp hI)
      simpa using this

theorem okInv_init : okInv [("_meta", .meta [])] [] := by
  refine ⟨⟨[], rfl⟩, by simp [hostvarsOf, lookupKey], ?_, ?_⟩
  · intro x hx
    simp [groupHosts_cons_meta, groupHosts_nil] at hx
  · intro x
    simp [hostvarsOf, lookupKey]

theorem generate_okInv {dt : String → Except String DescribeTagsResponse}
    {records : List Workspace} {inv : Inventory} {warns : List Workspace}
    (h : generate_inventory dt records = .ok (inv, warns)) :
    okInv inv records := by
  have := run_preserves_okInv records dt ([("_meta", .meta [])], []) inv warns [] h
    okInv_init
  simpa using this

/-! ### Further helper lemmas -/

theorem os_group_name_cases {os g : String} (h : os_group_name os = some g) :
    g = "ubuntu_22_04_workspaces" ∨ g = "amazon_linux_2_workspaces" ∨
    g = "windows_server_2016_workspaces" ∨ g = "windows_server_2019_workspaces" ∨
    g = "windows_server_2022_workspaces" ∨ g = "windows_10_workspaces" ∨
    g = "windows_11_workspaces" := by
  unfold os_group_name at h
  split_ifs at h <;> (cases h; tauto)

theorem os_group_no_hyphen {os g : String} (h : os_group_name os = some g) :
    '-' ∉ g.data ∧ g ≠ "_meta" := by
  rcases os_group_name_cases h with rfl | rfl | rfl | rfl | rfl | rfl | rfl <;>
    exact ⟨by decide, by decide⟩

theorem get_tags_hyphen {dt : String → Except String DescribeTagsResponse}
    {wid : String} {names : List String} (h : get_tags dt wid = .ok names) :
    ∀ n ∈ names, '-' ∈ n.data := by
  unfold get_tags at h
  cases hdt : dt wid with
  | error e => rw [hdt] at h; exact Except.noConfusion h
  | ok resp =>
    rw [hdt] at h
    cases h
    exact fun n hn => hyphen_mem_of_mem_tag_group_names hn

theorem get_tags_propagates {dt : String → Except String DescribeTagsResponse}
    {wid e : String} (h : dt wid = .error e) : get_tags dt wid = .error e := by
  unfold get_tags
  rw [h]

theorem hostvarsOf_classified_step {dt : String → Except String DescribeTagsResponse}
    {acc : Inventory × List Workspace} {ws : Workspace} {g : String}
    {inv' : Inventory} {w' : List Workspace}
    {m : List (String × List (String × String))}
    (hm : lookupKey acc.1 "_meta" = some (.meta m))
    (h1 : wsState ws = "AVAILABLE") (h2 : os_group_name (wsOs ws) = some g)
    (h : process_workspace dt acc ws = .ok (inv', w')) :
    lookupKey inv' "_meta"
      = some (.meta (dictSet m (wsIp ws) (host_vars_for g (wsComputerName ws)))) := by
  rw [process_classified h1 h2] at h
  cases hgt : get_tags dt (wsId ws) with
  | error e => rw [hgt] at h; exact Except.noConfusion h
  | ok names =>
    rw [hgt] at h
    cases h
    have hm1 : lookupKey (ensure_group acc.1 g) "_meta" = some (.meta m) := by
      rw [lookupKey_ensure_group_of_isSome g (by rw [hm]; rfl)]; exact hm
    have hm2 := lookupKey_meta_append_host _ g (wsIp ws) hm1
    have hm3 := lookupKey_meta_set_hostvar _ (wsIp ws)
      (host_vars_for g (wsComputerName ws)) hm2
    exact lookupKey_meta_add_tag_groups _ names (wsIp ws) hm3

theorem not_classified_ip_absent {dt : String → Except String DescribeTagsResponse}
    {records : List Workspace} {inv : Inventory} {warns : List Workspace} {ip : String}
    (h : generate_inventory dt records = .ok (inv, warns))
    (hips : ∀ ws ∈ records, wsIp ws = ip → ¬ classified ws) :
    ip ∉ groupHosts inv ∧ ip ∉ (hostvarsOf inv).map Prod.fst := by
  obtain ⟨_, _, h3, h4⟩ := generate_okInv h
  have hkeys : ip ∉ (hostvarsOf inv).map Prod.fst := by
    intro hip
    rcases (h4 ip).mp hip with ⟨w, hw, hc, hx⟩
    exact hips w hw hx hc
  exact ⟨fun hip => hkeys (h3 ip hip), hkeys⟩

theorem toplevel_help {args : Args} {env : Env}
    {fetch : WsFilter → Except String (List Workspace)}
    {dt : String → Except String DescribeTagsResponse}
    (hl : args.list = false) (hw : listTruthy args.workspace_ids = false) :
    toplevel args env fetch dt = (.help, 0) := by
  unfold toplevel
  rw [if_pos (by simp [hl, hw])]

theorem run_workspaces_error_append {dt : String → Except String DescribeTagsResponse}
    {e : String} : ∀ (l1 : List Workspace) (acc : Inventory × List Workspace)
    (l2 : List Workspace),
    run_workspaces dt acc l1 = .error e →
    run_workspaces dt acc (l1 ++ l2) = .error e := by
  intro l1
  induction l1 with
  | nil =>
    intro acc l2 h
    rw [run_workspaces] at h
    exact Except.noConfusion h
  | cons ws rest ih =>
    intro acc l2 h
    rw [run_workspaces_cons] at h
    rw [List.cons_append, run_workspaces_cons]
    cases hp : process_workspace dt acc ws with
    | error e' => rw [hp] at h; cases h; rfl
    | ok acc' =>
      rw [hp] at h
      exact ih acc' l2 h

/-! ### Claim theorems -/

/-- C1: for every input record sequence and tag lookup, in a successfully
built inventory every IP appearing in the host list of any group has
exactly one entry in `_meta.hostvars`, and an IP has a hostvars entry iff
some record with that IP was classified into a base OS group (ineligible
or unsupported-OS records appear nowhere). -/
theorem C1_hostvars_iff_classified
    (dt : String → Except String DescribeTagsResponse)
    (records : List Workspace) (inv : Inventory) (warns : List Workspace)
    (h : generate_inventory dt records = .ok (inv, warns)) :
    (∀ ip ∈ groupHosts inv, ((hostvarsOf inv).map Prod.fst).count ip = 1) ∧
    (∀ ip, ip ∈ (hostvarsOf inv).map Prod.fst ↔
      ∃ ws ∈ records, classified ws ∧ wsIp ws = ip) := by
  obtain ⟨_, h2, h3, h4⟩ := generate_okInv h
  exact ⟨fun ip hip => List.count_eq_one_of_mem h2 (h3 ip hip), h4⟩

/-- Witness for C1 at a one-record input. -/
theorem C1_witness :
    (((hostvarsOf sampleUbuntuInv).map Prod.fst).count "10.0.0.5" = 1) ∧
    ("10.0.0.5" ∈ (hostvarsOf sampleUbuntuInv).map Prod.fst ↔
      ∃ ws ∈ [sampleUbuntu], classified ws ∧ wsIp ws = "10.0.0.5") :=
  ⟨(C1_hostvars_iff_classified sampleDt [sampleUbuntu] sampleUbuntuInv []
      (by decide)).1 "10.0.0.5" (by decide),
   (C1_hostvars_iff_classified sampleDt [sampleUbuntu] sampleUbuntuInv []
      (by decide)).2 "10.0.0.5"⟩

/-- C2: a record classified into a group whose name begins with `windows`
gets winrm/kerberos/5985 connection variables with the Kerberos hostname
override equal to its computer name; a record classified into any other
group gets exactly the fixed SSH map; the entry is stored under
`_meta.hostvars[ip]`, overwriting any prior entry for that IP. -/
theorem C2_connection_vars
    (dt : String → Except String DescribeTagsResponse)
    (acc : Inventory × List Workspace) (ws : Workspace) (g : String)
    (inv' : Inventory) (w' : List Workspace)
    (m : List (String × List (String × String)))
    (hm : lookupKey acc.1 "_meta" = some (.meta m))
    (h1 : wsState ws = "AVAILABLE")
    (h2 : os_group_name (wsOs ws) = some g)
    (h : process_workspace dt acc ws = .ok (inv', w')) :
    hostvarsOf inv' = dictSet m (wsIp ws) (host_vars_for g (wsComputerName ws)) ∧
    lookupKey (hostvarsOf inv') (wsIp ws)
      = some (host_vars_for g (wsComputerName ws)) ∧
    (pyStartsWith g "windows" = true →
      host_vars_for g (wsComputerName ws) =
        [("ansible_connection", "winrm"),
         ("ansible_winrm_transport", "kerberos"),
         ("ansible_winrm_port", "5985"),
         ("ansible_winrm_kerberos_hostname_override", wsComputerName ws)]) ∧
    (pyStartsWith g "windows" = false →
      host_vars_for g (wsComputerName ws) =
        [("ansible_connection", "ssh"), ("ansible_user", "ansible")]) := by
  have hOf : hostvarsOf inv'
      = dictSet m (wsIp ws) (host_vars_for g (wsComputerName ws)) :=
    hostvarsOf_of_lookup (hostvarsOf_classified_step hm h1 h2 h)
  refine ⟨hOf, ?_, ?_, ?_⟩
  · rw [hOf]
    exact lookupKey_dictSet_self m (wsIp ws) _
  · intro hwin
    unfold host_vars_for
    rw [if_pos hwin]
  · intro hwin
    unfold host_vars_for
    rw [if_neg (by simp [hwin])]

/-- Witness for C2 at a concrete Windows record. -/
theorem C2_witness :
    lookupKey (hostvarsOf sampleWindowsInv) (wsIp sampleWindows)
      = some (host_vars_for "windows_11_workspaces" (wsComputerName sampleWindows)) ∧
    host_vars_for "windows_11_workspaces" (wsComputerName sampleWindows)
      = [("ansible_connection", "winrm"),
         ("ansible_winrm_transport", "kerberos"),
         ("ansible_winrm_port", "5985"),
         ("ansible_winrm_kerberos_hostname_override", wsComputerName sampleWindows)] :=
  ⟨(C2_connection_vars emptyDt ([("_meta", .meta [])], []) sampleWindows
      "windows_11_workspaces" sampleWindowsInv [] [] (by decide) (by decide)
      (by decide) (by decide)).2.1,
   (C2_connection_vars emptyDt ([("_meta", .meta [])], []) sampleWindows
      "windows_11_workspaces" sampleWindowsInv [] [] (by decide) (by decide)
      (by decide) (by decide)).2.2.1 (by decide)⟩

/-- C3 counterexample: a non-`AVAILABLE` record's IP can still appear in a
group's host list and in hostvars, namely when another `AVAILABLE` record
shares the same IP, so the claim "its IP appears in no group's host list
and has no `_meta.hostvars` entry" is false as stated. -/
theorem C3_counterexample :
    wsState stoppedWs ≠ "AVAILABLE" ∧ wsIp stoppedWs = "10.0.0.7" ∧
    generate_inventory emptyDt [stoppedWs, aliasWs] = .ok (aliasInv, []) ∧
    "10.0.0.7" ∈ groupHosts aliasInv ∧
    "10.0.0.7" ∈ (hostvarsOf aliasInv).map Prod.fst := by decide

/-- C3 (amended): a non-`AVAILABLE` record is skipped silently — no
warning, no error, inventory and warning list unchanged — and processing
continues; consequently an IP all of whose records are ineligible appears
in no group's host list and has no `_meta.hostvars` entry. -/
theorem C3_skip_not_available
    (dt : String → Except String DescribeTagsResponse) :
    (∀ (acc : Inventory × List Workspace) (ws : Workspace),
      wsState ws ≠ "AVAILABLE" → process_workspace dt acc ws = .ok acc) ∧
    (∀ (records : List Workspace) (inv : Inventory) (warns : List Workspace)
      (ip : String),
      generate_inventory dt records = .ok (inv, warns) →
      (∀ ws ∈ records, wsIp ws = ip → wsState ws ≠ "AVAILABLE") →
      ip ∉ groupHosts inv ∧ ip ∉ (hostvarsOf inv).map Prod.fst) := by
  refine ⟨fun acc ws h => process_not_available h, ?_⟩
  intro records inv warns ip h hips
  exact not_classified_ip_absent h (fun ws hw hx hc => hips ws hw hx hc.1)

/-- Witness for the amended C3. -/
theorem C3_witness :
    process_workspace emptyDt ([("_meta", .meta [])], []) stoppedWs
      = .ok ([("_meta", .meta [])], []) ∧
    ("10.0.0.7" ∉ groupHosts [("_meta", InvValue.meta [])] ∧
     "10.0.0.7" ∉ (hostvarsOf [("_meta", InvValue.meta [])]).map Prod.fst) :=
  ⟨(C3_skip_not_available emptyDt).1 ([("_meta", .meta [])], []) stoppedWs (by decide),
   (C3_skip_not_available emptyDt).2 [stoppedWs] [("_meta", .meta [])] [] "10.0.0.7"
     (by decide) (by decide)⟩

/-- C4 counterexample: an `AVAILABLE` record with an unrecognized OS is
warned about and contributes nothing, but its IP is not necessarily
excluded from all groups and hostvars — another classified record may
share the IP — so "excludes the host entirely from all groups and from
hostvars" is false as stated. -/
theorem C4_counterexample :
    wsState unsupWs = "AVAILABLE" ∧
    os_group_name (wsOs unsupWs) = none ∧
    wsIp unsupWs = "10.0.0.7" ∧
    generate_inventory emptyDt [unsupWs, aliasWs] = .ok (aliasInv, [unsupWs]) ∧
    "10.0.0.7" ∈ groupHosts aliasInv ∧
    "10.0.0.7" ∈ (hostvarsOf aliasInv).map Prod.fst := by decide

/-- C4 (amended): an `AVAILABLE` record with an unrecognized OS gets
exactly one warning, leaves the inventory unchanged, and the build
continues; the warning list of a successful build is exactly the
unsupported records in order; and an IP none of whose records is
classified appears in no group and has no hostvars entry. -/
theorem C4_unsupported_warn_skip
    (dt : String → Except String DescribeTagsResponse) :
    (∀ (acc : Inventory × List Workspace) (ws : Workspace),
      wsState ws = "AVAILABLE" → os_group_name (wsOs ws) = none →
      process_workspace dt acc ws = .ok (acc.1, acc.2 ++ [ws])) ∧
    (∀ (records : List Workspace) (inv : Inventory) (warns : List Workspace),
      generate_inventory dt records = .ok (inv, warns) →
      warns = records.filter warnPred) ∧
    (∀ (records : List Workspace) (inv : Inventory) (warns : List Workspace)
      (ip : String),
      generate_inventory dt records = .ok (inv, warns) →
      (∀ ws ∈ records, wsIp ws = ip → ¬ classified ws) →
      ip ∉ groupHosts inv ∧ ip ∉ (hostvarsOf inv).map Prod.fst) := by
  refine ⟨fun acc ws h1 h2 => process_unsupported h1 h2, ?_, ?_⟩
  · intro records inv warns h
    simpa using run_warns records dt ([("_meta", .meta [])], []) inv warns h
  · intro records inv warns ip h hips
    exact not_classified_ip_absent h hips

/-- Witness for the amended C4. -/
theorem C4_witness :
    process_workspace emptyDt ([("_meta", .meta [])], []) unsupWs
      = .ok ([("_meta", .meta [])], [] ++ [unsupWs]) ∧
    [unsupWs] = [unsupWs, aliasWs].filter warnPred ∧
    ("10.0.0.7" ∉ groupHosts [("_meta", InvValue.meta [])] ∧
     "10.0.0.7" ∉ (hostvarsOf [("_meta", InvValue.meta [])]).map Prod.fst) :=
  ⟨(C4_unsupported_warn_skip emptyDt).1 ([("_meta", .meta [])], []) unsupWs
     (by decide) (by decide),
   (C4_unsupported_warn_skip emptyDt).2.1 [unsupWs, aliasWs] aliasInv [unsupWs]
     (by decide),
   (C4_unsupported_warn_skip emptyDt).2.2 [unsupWs] [("_meta", .meta [])] [unsupWs]
     "10.0.0.7" (by decide) (by decide)⟩

/-- C5: the OS name is mapped to the group name by the fixed seven-entry
table, and a classified record's IP is appended to exactly that group's
host list, the group being created with an empty host list and var map if
absent; every other hyphen-free key of the inventory is untouched by the
step. -/
theorem C5_os_table_append
    (dt : String → Except String DescribeTagsResponse)
    (acc : Inventory × List Workspace) (ws : Workspace) (g : String)
    (inv' : Inventory) (w' : List Workspace)
    (h1 : wsState ws = "AVAILABLE")
    (h2 : os_group_name (wsOs ws) = some g)
    (h : process_workspace dt acc ws = .ok (inv', w')) :
    (os_group_name "UBUNTU_22_04" = some "ubuntu_22_04_workspaces" ∧
     os_group_name "AMAZON_LINUX_2" = some "amazon_linux_2_workspaces" ∧
     os_group_name "WINDOWS_SERVER_2016" = some "windows_server_2016_workspaces" ∧
     os_group_name "WINDOWS_SERVER_2019" = some "windows_server_2019_workspaces" ∧
     os_group_name "WINDOWS_SERVER_2022" = some "windows_server_2022_workspaces" ∧
     os_group_name "WINDOWS_10" = some "windows_10_workspaces" ∧
     os_group_name "WINDOWS_11" = some "windows_11_workspaces") ∧
    (lookupKey acc.1 g = none →
      lookupKey inv' g = some (.group [wsIp ws] [])) ∧
    (∀ hs vs, lookupKey acc.1 g = some (.group hs vs) →
      lookupKey inv' g = some (.group (hs ++ [wsIp ws]) vs)) ∧
    (∀ n : String, '-' ∉ n.data → n ≠ g → n ≠ "_meta" →
      lookupKey inv' n = lookupKey acc.1 n) := by
  rw [process_classified h1 h2] at h
  cases hgt : get_tags dt (wsId ws) with
  | error e => rw [hgt] at h; exact Except.noConfusion h
  | ok names =>
    rw [hgt] at h
    cases h
    obtain ⟨hg_nohyph, hg_nometa⟩ := os_group_no_hyphen h2
    have hg_notag : ∀ nm ∈ names, g ≠ nm := by
      intro nm hnm hgnm
      exact hg_nohyph (hgnm ▸ get_tags_hyphen hgt nm hnm)
    refine ⟨⟨by decide, by decide, by decide, by decide, by decide, by decide,
      by decide⟩, ?_, ?_, ?_⟩
    · intro hnone
      have hc : containsKey acc.1 g = false := (lookupKey_eq_none_iff _ _).mp hnone
      have he : lookupKey (ensure_group acc.1 g) g = some (.group [] []) := by
        unfold ensure_group
        rw [if_neg (by simp [hc]), lookupKey_append_right _ hc]
        simp [lookupKey]
      have ha : lookupKey (append_host (ensure_group acc.1 g) g (wsIp ws)) g
          = some (.group [wsIp ws] []) := by
        simpa using lookupKey_append_host_group_self (wsIp ws) he
      rw [lookupKey_add_tag_groups_ne names _ (wsIp ws) hg_notag,
        lookupKey_set_hostvar_ne _ (wsIp ws) _ hg_nometa]
      exact ha
    · intro hs vs hsome
      have he : lookupKey (ensure_group acc.1 g) g = some (.group hs vs) := by
        unfold ensure_group
        rw [if_pos (by rw [containsKey_of_lookupKey hsome])]
        exact hsome
      have ha := lookupKey_append_host_group_self (wsIp ws) he
      rw [lookupKey_add_tag_groups_ne names _ (wsIp ws) hg_notag,
        lookupKey_set_hostvar_ne _ (wsIp ws) _ hg_nometa]
      exact ha
    · intro n hn hng hnm
      have hn_notag : ∀ nm ∈ names, n ≠ nm := by
        intro nm hnm' hnnm
        exact hn (hnnm ▸ get_tags_hyphen hgt nm hnm')
      rw [lookupKey_add_tag_groups_ne names _ (wsIp ws) hn_notag,
        lookupKey_set_hostvar_ne _ (wsIp ws) _ hnm,
        lookupKey_append_host_ne _ g (wsIp ws) hng,
        lookupKey_ensure_group_ne _ g hng]

/-- Witness for C5 at a concrete Ubuntu record. -/
theorem C5_witness :
    lookupKey sampleUbuntuInv "ubuntu_22_04_workspaces"
      = some (.group [wsIp sampleUbuntu] []) ∧
    lookupKey sampleUbuntuInv "windows_11_workspaces" = none :=
  ⟨(C5_os_table_append sampleDt ([("_meta", .meta [])], []) sampleUbuntu
      "ubuntu_22_04_workspaces" sampleUbuntuInv [] (by decide) (by decide)
      (by decide)).2.1 (by decide),
   by
    rw [(C5_os_table_append sampleDt ([("_meta", .meta [])], []) sampleUbuntu
      "ubuntu_22_04_workspaces" sampleUbuntuInv [] (by decide) (by decide)
      (by decide)).2.2.2 "windows_11_workspaces" (by decide) (by decide) (by decide)]
    decide⟩

/-- C6: the tag-derived group names of one record are, in first-seen order
with duplicates suppressed, the lowercased `key-value` strings of its tags;
two tags equal up to case yield the same name, so the derivation is
deterministic and repeating a pair adds no duplicate. -/
theorem C6_tag_name_derivation (tags_list : List TagPair) :
    tag_group_names tags_list = firstSeenDedup (tags_list.map tag_name) ∧
    (tag_group_names tags_list).Nodup ∧
    (∀ t1 t2 : TagPair,
      pyLower (t1.Key.getD "") = pyLower (t2.Key.getD "") →
      pyLower (t1.Value.getD "") = pyLower (t2.Value.getD "") →
      tag_name t1 = tag_name t2) := by
  refine ⟨tag_group_names_eq tags_list, ?_, ?_⟩
  · rw [tag_group_names_eq]
    exact nodup_firstSeenDedup _
  · intro t1 t2 hk hv
    unfold tag_name
    rw [hk, hv]

/-- Witness for C6 at a concrete tag list with a case-variant repeat. -/
theorem C6_witness :
    tag_group_names [⟨some "Team", some "Infra"⟩, ⟨some "TEAM", some "infra"⟩]
      = firstSeenDedup
          ([⟨some "Team", some "Infra"⟩,
            (⟨some "TEAM", some "infra"⟩ : TagPair)].map tag_name) ∧
    tag_name ⟨some "Team", some "Infra"⟩ = tag_name ⟨some "TEAM", some "infra"⟩ :=
  ⟨(C6_tag_name_derivation
      [⟨some "Team", some "Infra"⟩, ⟨some "TEAM", some "infra"⟩]).1,
   (C6_tag_name_derivation
      [⟨some "Team", some "Infra"⟩, ⟨some "TEAM", some "infra"⟩]).2.2
      ⟨some "Team", some "Infra"⟩ ⟨some "TEAM", some "infra"⟩
      (by decide) (by decide)⟩

/-- C7 counterexample: with `--list`, a region, a record source returning
one classified record and a tag lookup that always fails, the build aborts
and no inventory is printed, but the `__main__` handler catches the
exception and the process exits with status 0, not a non-zero outcome as
claimed. -/
theorem C7_counterexample :
    toplevel listArgs emptyEnv oneRecordFetch failDt
      = (.errorCaught "boom", 0) := by decide

/-- C7 (amended): a failing tag lookup propagates immediately — through
`get_tags`, through the record loop (remaining records unprocessed), and
out of the build, so no partial inventory is returned or printed; the
toplevel handler prints the error and the process exits with status 0. -/
theorem C7_tag_failure_aborts :
    (∀ (dt : String → Except String DescribeTagsResponse) (wid e : String),
      dt wid = .error e → get_tags dt wid = .error e) ∧
    (∀ (dt : String → Except String DescribeTagsResponse)
      (acc : Inventory × List Workspace) (ws : Workspace) (e : String),
      classified ws → dt (wsId ws) = .error e →
      process_workspace dt acc ws = .error e) ∧
    (∀ (dt : String → Except String DescribeTagsResponse)
      (acc : Inventory × List Workspace) (l1 l2 : List Workspace) (e : String),
      run_workspaces dt acc l1 = .error e →
      run_workspaces dt acc (l1 ++ l2) = .error e) ∧
    (∀ (args : Args) (env : Env) (fetch : WsFilter → Except String (List Workspace))
      (dt : String → Except String DescribeTagsResponse)
      (recs : List Workspace) (e : String),
      (!args.list && !listTruthy args.workspace_ids) = false →
      strTruthy (if strTruthy args.region then args.region else env.AWS_REGION) = true →
      get_workspaces fetch
        (if strTruthy args.directory_id then args.directory_id else env.DIRECTORY_ID)
        args.workspace_ids = .ok recs →
      generate_inventory dt recs = .error e →
      toplevel args env fetch dt = (.errorCaught e, 0)) := by
  refine ⟨fun dt wid e h => get_tags_propagates h, ?_, ?_, ?_⟩
  · intro dt acc ws e hc hdt
    obtain ⟨h1, h2⟩ := hc
    rcases Option.isSome_iff_exists.mp h2 with ⟨g, hg⟩
    rw [process_classified h1 hg, get_tags_propagates hdt]
  · intro dt acc l1 l2 e h
    exact run_workspaces_error_append l1 acc l2 h
  · intro args env fetch dt recs e hgate hregion hfetch hgen
    unfold toplevel
    rw [if_neg (by simp [hgate])]
    simp only [hregion, Bool.not_true, if_neg, hfetch, hgen]
    rfl

/-- Witness for the amended C7. -/
theorem C7_witness :
    get_tags failDt "ws-1" = .error "boom" ∧
    process_workspace failDt ([("_meta", .meta [])], []) sampleUbuntu
      = .error "boom" ∧
    run_workspaces failDt ([("_meta", .meta [])], [])
      ([sampleUbuntu] ++ [sampleWindows]) = .error "boom" ∧
    toplevel listArgs emptyEnv oneRecordFetch failDt
      = (.errorCaught "boom", 0) :=
  ⟨C7_tag_failure_aborts.1 failDt "ws-1" "boom" rfl,
   C7_tag_failure_aborts.2.1 failDt ([("_meta", .meta [])], []) sampleUbuntu "boom"
     (by decide) rfl,
   C7_tag_failure_aborts.2.2.1 failDt ([("_meta", .meta [])], [])
     [sampleUbuntu] [sampleWindows] "boom" (by decide),
   C7_tag_failure_aborts.2.2.2 listArgs emptyEnv oneRecordFetch failDt
     [sampleUbuntu] "boom" (by decide) (by decide) (by decide) (by decide)⟩

/-- C8 counterexample: with `--workspace-ids ws-1` and a region but
without `--list`, the script still builds and prints the inventory, so
"inventory output only when `--list` is present" is false as stated. -/
theorem C8_counterexample :
    idsArgs.list = false ∧
    toplevel idsArgs emptyEnv emptyFetch emptyDt
      = (.printed [("_meta", .meta [])], 0) := by decide

/-- C8 (amended): the help text is shown and nothing is built or printed
exactly when both `--list` is absent and `--workspace-ids` is absent or
empty; inventory output therefore requires `--list` or a non-empty
`--workspace-ids`, not `--list` alone. -/
theorem C8_list_or_ids_gate :
    (∀ (args : Args) (env : Env) (fetch : WsFilter → Except String (List Workspace))
      (dt : String → Except String DescribeTagsResponse),
      args.list = false → listTruthy args.workspace_ids = false →
      toplevel args env fetch dt = (.help, 0)) ∧
    (∀ (args : Args) (env : Env) (fetch : WsFilter → Except String (List Workspace))
      (dt : String → Except String DescribeTagsResponse) (inv : Inventory) (c : Nat),
      toplevel args env fetch dt = (.printed inv, c) →
      args.list = true ∨ listTruthy args.workspace_ids = true) := by
  refine ⟨fun args env fetch dt hl hw => toplevel_help hl hw, ?_⟩
  intro args env fetch dt inv c h
  cases hl : args.list with
  | true => exact Or.inl rfl
  | false =>
    cases hw : listTruthy args.workspace_ids with
    | true => exact Or.inr rfl
    | false =>
      rw [toplevel_help hl hw] at h
      cases h

/-- Witness for the amended C8. -/
theorem C8_witness :
    toplevel ⟨some "us-west-2", false, none, none⟩ emptyEnv emptyFetch emptyDt
      = (.help, 0) ∧
    (idsArgs.list = true ∨ listTruthy idsArgs.workspace_ids = true) :=
  ⟨C8_list_or_ids_gate.1 ⟨some "us-west-2", false, none, none⟩ emptyEnv emptyFetch
     emptyDt rfl rfl,
   C8_list_or_ids_gate.2 idsArgs emptyEnv emptyFetch emptyDt
     [("_meta", .meta [])] 0 (by decide)⟩

/-- C9: every field the build reads is a defensive lookup defaulting to the
empty string, so records lacking fields never fail; in particular a record
missing its IP address is silently keyed by the empty string in its group's
host list and in `_meta.hostvars`. -/
theorem C9_defensive_defaults :
    (∀ c p i a, wsState ⟨none, c, p, i, a⟩ = "") ∧
    (∀ s p i a, wsComputerName ⟨s, none, p, i, a⟩ = "") ∧
    (∀ s c i a, wsOs ⟨s, c, none, i, a⟩ = "") ∧
    (∀ s c p a, wsId ⟨s, c, p, none, a⟩ = "") ∧
    (∀ s c p i, wsIp ⟨s, c, p, i, none⟩ = "") ∧
    (∀ v, tag_name ⟨none, v⟩ = "-" ++ pyLower (v.getD "")) ∧
    (∀ k, tag_name ⟨k, none⟩ = pyLower (k.getD "") ++ "-") ∧
    (∀ (dt : String → Except String DescribeTagsResponse)
      (i : Inventory) (w : List Workspace),
      process_workspace dt (i, w) ⟨none, none, none, none, none⟩ = .ok (i, w)) ∧
    generate_inventory emptyDt [noIpWs]
      = .ok ([("_meta", .meta [("",
          [("ansible_connection", "ssh"), ("ansible_user", "ansible")])]),
         ("ubuntu_22_04_workspaces", .group [""] [])], []) := by
  refine ⟨fun c p i a => rfl, fun s p i a => rfl, fun s c i a => rfl,
    fun s c p a => rfl, fun s c p i => rfl, fun v => rfl, fun k => ?_,
    fun dt i w => process_not_available (by decide), by decide⟩
  unfold tag_name
  show pyLower (k.getD "") ++ "-" ++ pyLower "" = pyLower (k.getD "") ++ "-"
  exact String.append_empty _

/-- C10: every tag-derived group name contains a hyphen while `_meta` and
the seven OS-derived group names contain none, so a tag-derived group can
never collide with `_meta` or with an OS-derived group. -/
theorem C10_no_name_collisions :
    (∀ (tags_list : List TagPair) (n : String),
      n ∈ tag_group_names tags_list → '-' ∈ n.data) ∧
    '-' ∉ "_meta".data ∧
    (∀ os g : String, os_group_name os = some g → '-' ∉ g.data) ∧
    (∀ (tags_list : List TagPair) (n : String),
      n ∈ tag_group_names tags_list →
      n ≠ "_meta" ∧ ∀ os g : String, os_group_name os = some g → n ≠ g) := by
  refine ⟨fun tags_list n hn => hyphen_mem_of_mem_tag_group_names hn,
    by decide, fun os g h => (os_group_no_hyphen h).1, ?_⟩
  intro tags_list n hn
  have hhy : '-' ∈ n.data := hyphen_mem_of_mem_tag_group_names hn
  constructor
  · rintro rfl
    revert hhy
    decide
  · intro os g hg hng
    exact (os_group_no_hyphen hg).1 (hng ▸ hhy)

/-- Witness for C10 at a concrete tag list. -/
theorem C10_witness :
    ('-' ∈ "team-infra".data) ∧
    ("team-infra" ≠ "_meta" ∧
      ∀ os g : String, os_group_name os = some g → "team-infra" ≠ g) :=
  ⟨C10_no_name_collisions.1 sampleTags "team-infra" (by decide),
   C10_no_name_collisions.2.2.2 sampleTags "team-infra" (by decide)⟩

end WorkspacesInventory
